import Mathlib

/-!
# Verification of the flashcards persistence core (src/server.js)

Shallow embedding of the record model, the sanitize/merge rules, the
store-file read/write layer and the in-process write queue of the
flashcards server, together with proofs and refutations of its
specification's claims.

Conventions of the embedding:
* JS strings are Lean `String`; the regex `/^=+\s*/` and `String.trim`
  are modelled on the underlying character lists.
* `Date().toISOString()` and `nanoid()` are nondeterministic inputs of
  the program; they appear as explicit parameters `now` / `genId`.
* JS numbers reaching the numeric card fields are modelled as decimal
  mantissa/exponent pairs `JsNum` (`Number(x)` on a number is the
  identity; no arithmetic is ever performed on these fields, only
  storage and retrieval, so only equality matters).
* `x ?? y` (nullish coalescing) on an optional field is `Option.getD`;
  `x || y` (truthiness, where the only falsy string is `""`) is
  `jsOrDefault`.
-/

/-- The whitespace class used by both JS `String.trim` and `\s` for the
ASCII-range characters occurring in this development. -/
def jsWs (c : Char) : Bool :=
  c = ' ' || c = '\t' || c = '\n' || c = '\r' || c = '\x0b' || c = '\x0c'

/-- Model of `s.replace(/^=+\s*/, "")` on a character list: if the string starts
with `'='`, remove the maximal leading run of `'='` and then the maximal
following run of whitespace; otherwise leave it unchanged. -/
def stripEqPrefix (cs : List Char) : List Char :=
  match cs with
  | '=' :: _ => (cs.dropWhile (fun c => c = '=')).dropWhile jsWs
  | _ => cs

/-- JS `String.trim()` on a character list. -/
def jsTrim (cs : List Char) : List Char :=
  ((cs.dropWhile jsWs).reverse.dropWhile jsWs).reverse

/-- Model of `String(x).replace(/^=+\s*/, "").trim()` — the normalization the
server applies to `front`, and to `back` when it is a single string. -/
def normalizeText (s : String) : String :=
  ⟨jsTrim (stripEqPrefix s.data)⟩

/-- JS `x || dflt` for an optional string: the default is used when the
field is absent or the empty string (the only falsy string). -/
def jsOrDefault (o : Option String) (dflt : String) : String :=
  match o with
  | some s => if s = "" then dflt else s
  | none => dflt

/-- A JS number written as a decimal literal `mant * 10 ^ (- exp)`.
The card fields `ease`, `interval`, `lapses` hold numbers that are only
ever stored and compared, never computed with, so a structural decimal
representation is a faithful model. -/
structure JsNum where
  mant : Int
  exp : Nat
deriving DecidableEq, Repr

/-- The default ease factor `2.5`. -/
def easeDefault : JsNum := { mant := 25, exp := 1 }

/-- The number `0` (default `interval` and `lapses`). -/
def jsZero : JsNum := { mant := 0, exp := 0 }

/-- A `back` (or legacy `translation`) value in a request body: either a
single string or an array of strings. -/
inductive BackVal where
  | str (s : String)
  | arr (xs : List String)
deriving DecidableEq, Repr

/-- A card record as stored in the JSON store file (the object literal
built by `sanitizeCard`, src/server.js lines 88-99). -/
structure Card where
  id : String
  front : String
  back : String
  lang_from : String
  lang_to : String
  tags : List String
  ease : JsNum
  interval : JsNum
  next_review : String
  lapses : JsNum
  created_at : String
deriving DecidableEq, Repr

/-- A loosely-typed incoming record (a `POST /api/cards` body element),
with every field optional. -/
structure RawCard where
  id : Option String := none
  front : Option String := none
  portuguese : Option String := none
  back : Option BackVal := none
  translation : Option BackVal := none
  lang_from : Option String := none
  lang_to : Option String := none
  tags : Option (List String) := none
  ease : Option JsNum := none
  interval : Option JsNum := none
  next_review : Option String := none
  lapses : Option JsNum := none
  created_at : Option String := none
deriving DecidableEq, Repr

/-- Model of `sanitizeCard` (src/server.js lines 80-100). `genId` is the value
`nanoid()` would produce on this call and `now` the value of
`new Date().toISOString()`. -/
def sanitizeCard (genId now : String) (c : RawCard) : Option Card :=
  let front := normalizeText ((c.front.or c.portuguese).getD "")
  let backIn := (c.back.or c.translation).getD (.str "")
  let back :=
    match backIn with
    | .arr xs => String.intercalate " / " xs
    | .str s => normalizeText s
  if front = "" ∨ back = "" then none
  else some {
    id := jsOrDefault c.id genId
    front := front
    back := back
    lang_from := jsOrDefault c.lang_from "pt"
    lang_to := jsOrDefault c.lang_to "de"
    tags := (c.tags.getD []).take 10
    ease := c.ease.getD easeDefault
    interval := c.interval.getD jsZero
    next_review := jsOrDefault c.next_review now
    lapses := c.lapses.getD jsZero
    created_at := jsOrDefault c.created_at now
  }

/-- The body of a `PUT /api/cards/:id` request after the handler's
in-place normalization of `front` and `back` (src/server.js lines
136-142): every field is optional, `front` is a string and `back` has
already been flattened to a string. A body may also carry `id` or
`created_at` — the handler does not filter them out. -/
structure Patch where
  id : Option String := none
  front : Option String := none
  back : Option String := none
  lang_from : Option String := none
  lang_to : Option String := none
  tags : Option (List String) := none
  ease : Option JsNum := none
  interval : Option JsNum := none
  next_review : Option String := none
  lapses : Option JsNum := none
  created_at : Option String := none
deriving DecidableEq, Repr

/-- A raw `PUT` body before the handler's normalization: `front` a
string, `back` a string or an array of strings. -/
structure RawPatch where
  id : Option String := none
  front : Option String := none
  back : Option BackVal := none
  lang_from : Option String := none
  lang_to : Option String := none
  tags : Option (List String) := none
  ease : Option JsNum := none
  interval : Option JsNum := none
  next_review : Option String := none
  lapses : Option JsNum := none
  created_at : Option String := none
deriving DecidableEq, Repr

/-- The normalization the `PUT` handler applies to the request body
before enqueuing (src/server.js lines 136-142): `front`, when present,
gets `String(..).replace(/^=+\s*/, "").trim()`; `back`, when present,
is joined with `" / "` if it is an array and normalized like `front`
otherwise. No emptiness check is performed. -/
def normalizePatch (p : RawPatch) : Patch :=
  { id := p.id
    front := p.front.map normalizeText
    back := p.back.map (fun b =>
      match b with
      | .arr xs => String.intercalate " / " xs
      | .str s => normalizeText s)
    lang_from := p.lang_from
    lang_to := p.lang_to
    tags := p.tags
    ease := p.ease
    interval := p.interval
    next_review := p.next_review
    lapses := p.lapses
    created_at := p.created_at }

/-- The spread merge `{ ...existing, ...patch }` of the `PUT` mutator
(src/server.js line 148): each field present in the patch overrides the
existing one, absent fields are left untouched. -/
def mergePatch (c : Card) (p : Patch) : Card :=
  { id := p.id.getD c.id
    front := p.front.getD c.front
    back := p.back.getD c.back
    lang_from := p.lang_from.getD c.lang_from
    lang_to := p.lang_to.getD c.lang_to
    tags := p.tags.getD c.tags
    ease := p.ease.getD c.ease
    interval := p.interval.getD c.interval
    next_review := p.next_review.getD c.next_review
    lapses := p.lapses.getD c.lapses
    created_at := p.created_at.getD c.created_at }

/-- The index of the last card with the given id, mirroring
`new Map(cards.map((x,i)=>[x.id,i]))` of the `POST` mutator
(src/server.js line 119): a `Map` built from key/index pairs keeps, for
a duplicated key, the index set last. -/
def lastIdxOf : List Card → String → Option Nat
  | [], _ => none
  | c :: cs, i =>
    match lastIdxOf cs i with
    | some j => some (j + 1)
    | none => if c.id = i then some 0 else none

/-- The loop body of the `POST /api/cards` mutator (src/server.js lines
120-123). The index map `idx` is computed once from the collection the
mutator received and is not updated as items are pushed. The spread
`{ ...cards[idx.get(n.id)], ...n }` overwrites every field of the
existing card, because a sanitized item carries all card fields, so the
assignment stores `n` itself. -/
def upsertLoop (idx : String → Option Nat) : List Card → List Card → List Card
  | cards, [] => cards
  | cards, n :: rest =>
    match idx n.id with
    | some i => upsertLoop idx (cards.set i n) rest
    | none => upsertLoop idx (cards ++ [n]) rest

/-- The mutator enqueued by `POST /api/cards` (src/server.js lines
118-125), applied to the sanitized items and the loaded collection. -/
def upsertMutator (sanitized cards : List Card) : List Card :=
  upsertLoop (lastIdxOf cards) cards sanitized

/-- JS `Array.prototype.findIndex`: the index of the first element
satisfying the predicate, `none` standing for the sentinel `-1`. -/
def findIndex (p : Card → Bool) : List Card → Option Nat
  | [] => none
  | c :: cs => if p c then some 0 else (findIndex p cs).map (· + 1)

/-- The mutator enqueued by `PUT /api/cards/:id` (src/server.js lines
145-151): find the first card with the target id; if none, leave the
collection unchanged and report `false`; else replace it with the
spread merge and report `true`. -/
def patchMutator (id : String) (p : Patch) (cards : List Card) :
    List Card × Bool :=
  match findIndex (fun c => c.id = id) cards with
  | none => (cards, false)
  | some i =>
    match cards[i]? with
    | none => (cards, false)
    | some c => (cards.set i (mergePatch c p), true)

/-- The mutator enqueued by `DELETE /api/cards/:id` (src/server.js
lines 162-167): filter out every card with the target id and report
whether the length changed. -/
def deleteMutator (id : String) (cards : List Card) : List Card × Bool :=
  let next := cards.filter (fun c => ¬ c.id = id)
  (next, ¬ next.length = cards.length)

/-- The store file `data/cards.json` at rest, abstracted by whether its
text parses as a JSON array of cards: `good cs` is content that parses
to the collection `cs`, `corrupt txt` is content on which `JSON.parse`
throws. -/
inductive StoreFile where
  | good (cards : List Card)
  | corrupt (txt : String)
deriving DecidableEq, Repr

/-- Model of `safeRead` (src/server.js lines 42-51): parse the file; on a parse
failure log `read_cards_parse_failed`, rewrite the file as the empty
array and return the empty collection. Returns the collection, the file
content after the call, and the log lines emitted. -/
def safeRead (f : StoreFile) : List Card × StoreFile × List String :=
  match f with
  | .good cs => (cs, .good cs, [])
  | .corrupt _ => ([], .good [], ["read_cards_parse_failed"])

/-- The `GET /api/cards` handler (src/server.js lines 105-109): a
direct `safeRead`, answering the collection and its length. Returns the
response body, the file content after the call, and the log. -/
def listCards (f : StoreFile) :
    (List Card × Nat) × StoreFile × List String :=
  let r := safeRead f
  ((r.1, r.1.length), r.2.1, r.2.2)

/-- One unit of work on the write chain: the mutator enqueued by a
request (which, like a JS async function, may throw — modelled by
`Except`), together with whether its `safeWrite` (temp-file write +
rename) succeeds. -/
structure WriteUnit where
  mutator : List Card → Except String (List Card)
  saveOk : Bool

/-- Execution of one chained unit (the body of `enqueueWrite`,
src/server.js lines 62-66, with its `.catch` on line 66): `safeRead`
the file, apply the mutator, `safeWrite` the result. A throw from the
mutator or from the save is caught and logged as `write_failed`, and
the canonical file keeps the content it had after the `safeRead` (the
atomic rename is the only operation that mutates it). -/
def runUnit (f : StoreFile) (u : WriteUnit) : StoreFile × List String :=
  let r := safeRead f
  match u.mutator r.1 with
  | .error e => (r.2.1, r.2.2 ++ ["write_failed: " ++ e])
  | .ok next =>
    if u.saveOk then (.good next, r.2.2)
    else (r.2.1, r.2.2 ++ ["write_failed: save"])

/-- Execution of the promise chain `writeChain` from a given file state
and log: the units run one after the other, each seeing the file state
the previous one left (src/server.js lines 60-68). -/
def runChainFrom : StoreFile × List String → List WriteUnit → StoreFile × List String
  | acc, [] => acc
  | acc, u :: us =>
    runChainFrom (let r := runUnit acc.1 u; (r.1, acc.2 ++ r.2)) us

/-- Execution of the whole write chain over the units enqueued, in
enqueue order, starting from file state `f` with an empty log. -/
def runChain (f : StoreFile) (us : List WriteUnit) : StoreFile × List String :=
  runChainFrom (f, []) us

/-- A unit that fails: whatever collection it is handed, either its
mutator throws, or the mutator succeeds but its save step fails. -/
def unitFails (u : WriteUnit) : Prop :=
  ∀ cs : List Card,
    match u.mutator cs with
    | .error _ => True
    | .ok _ => u.saveOk = false

/-- Model of `requireToken` (src/server.js lines 70-78): extract the bearer
token from the `Authorization` header (`""` when the header is missing
or not of the `Bearer ` shape) and reject — `none`, the 401 path —
unless the configured secret is non-empty and the token equals it. -/
def requireToken (writeToken : String) (authHeader : Option String) : Option String :=
  let auth := authHeader.getD ""
  let token := if auth.startsWith "Bearer " then auth.drop 7 else ""
  if writeToken = "" ∨ ¬ token = writeToken then none else some token

/-- The HTTP status a mutation handler (`POST`, `PUT`, `DELETE`)
answers as a function of the authorization check: all three handlers
start with `if (!requireToken(req, res)) return;` and send 401
`unauthorized` on the rejection path (src/server.js lines 113, 133,
159); otherwise the handler body computes some other status. -/
def mutationStatus (writeToken : String) (authHeader : Option String)
    (body : Nat) : Nat :=
  match requireToken writeToken authHeader with
  | none => 401
  | some _ => body

/-! ## Helper lemmas -/

theorem lastIdxOf_eq_none_iff (cards : List Card) (i : String) :
    lastIdxOf cards i = none ↔ ∀ c ∈ cards, c.id ≠ i := by
  induction cards with
  | nil => simp [lastIdxOf]
  | cons c cs ih =>
    simp only [lastIdxOf]
    cases h : lastIdxOf cs i with
    | some j =>
      simp only [h]
      simp
      intro hc
      have hne : ¬ ∀ c ∈ cs, c.id ≠ i := fun hall => by simp [ih.mpr hall] at h
      push_neg at hne
      exact hne
    | none =>
      simp only [h]
      constructor
      · intro hif
        by_cases hc : c.id = i
        · simp [hc] at hif
        · intro x hx
          rcases List.mem_cons.mp hx with rfl | hx
          · exact hc
          · exact (ih.mp h) x hx
      · intro hall
        have : c.id ≠ i := hall c (by simp)
        simp [this]

theorem lastIdxOf_spec (cards : List Card) (i : String) (j : Nat)
    (h : lastIdxOf cards i = some j) :
    ∃ hj : j < cards.length, (cards.get ⟨j, hj⟩).id = i := by
  induction cards generalizing j with
  | nil => simp [lastIdxOf] at h
  | cons c cs ih =>
    simp only [lastIdxOf] at h
    cases h' : lastIdxOf cs i with
    | some j' =>
      rw [h'] at h
      injection h with h
      subst h
      obtain ⟨hj', hg⟩ := ih j' h'
      exact ⟨by simpa using Nat.succ_lt_succ hj', by simpa using hg⟩
    | none =>
      rw [h'] at h
      by_cases hc : c.id = i
      · simp [hc] at h
        subst h
        exact ⟨by simp, hc⟩
      · simp [hc] at h


theorem findIndex_eq_none_iff (p : Card → Bool) (cards : List Card) :
    findIndex p cards = none ↔ ∀ c ∈ cards, ¬ p c := by
  induction cards with
  | nil => simp [findIndex]
  | cons c cs ih =>
    by_cases hc : p c
    · simp only [findIndex, hc, if_pos rfl]
      simp
      intro hfalse
      simp [hc] at hfalse
    · simp [findIndex, hc, ih]

theorem findIndex_spec (p : Card → Bool) (cards : List Card) (i : Nat)
    (h : findIndex p cards = some i) :
    ∃ hi : i < cards.length, p (cards.get ⟨i, hi⟩) := by
  induction cards generalizing i with
  | nil => simp [findIndex] at h
  | cons c cs ih =>
    by_cases hc : p c
    · simp [findIndex, hc] at h
      subst h
      exact ⟨by simp, by simpa using hc⟩
    · simp [findIndex, hc] at h
      obtain ⟨j, hj, rfl⟩ := h
      obtain ⟨hj', hp⟩ := ih j hj
      exact ⟨by simpa using Nat.succ_lt_succ hj', by simpa using hp⟩

theorem runChainFrom_append (us vs : List WriteUnit) (acc : StoreFile × List String) :
    runChainFrom acc (us ++ vs) = runChainFrom (runChainFrom acc us) vs := by
  induction us generalizing acc with
  | nil => simp [runChainFrom]
  | cons u us ih => simp [runChainFrom, ih]

theorem runChainFrom_fst_log_irrelevant (us : List WriteUnit) (f : StoreFile)
    (l l' : List String) :
    (runChainFrom (f, l) us).1 = (runChainFrom (f, l') us).1 := by
  induction us generalizing f l l' with
  | nil => simp [runChainFrom]
  | cons u us ih => simp only [runChainFrom]; exact ih _ _ _

theorem upsertLoop_mem (idx : String → Option Nat) (ns cards : List Card)
    (c : Card) (hc : c ∈ upsertLoop idx cards ns) :
    c ∈ cards ∨ c ∈ ns := by
  induction ns generalizing cards with
  | nil => simp [upsertLoop] at hc; exact Or.inl hc
  | cons n rest ih =>
    simp only [upsertLoop] at hc
    cases h : idx n.id with
    | some i =>
      rw [h] at hc
      rcases ih _ hc with hm | hm
      · rcases List.mem_or_eq_of_mem_set hm with hm' | rfl
        · exact Or.inl hm'
        · exact Or.inr (by simp)
      · exact Or.inr (by simp [hm])
    | none =>
      rw [h] at hc
      rcases ih _ hc with hm | hm
      · rcases List.mem_append.mp hm with hm' | hm'
        · exact Or.inl hm'
        · exact Or.inr (by simp [List.mem_singleton.mp hm'])
      · exact Or.inr (by simp [hm])

theorem upsertMutator_single (cards : List Card) (n : Card) :
    upsertMutator [n] cards =
      match lastIdxOf cards n.id with
      | some i => cards.set i n
      | none => cards ++ [n] := by
  unfold upsertMutator upsertLoop
  cases lastIdxOf cards n.id <;> simp [upsertLoop]

/-! ## Claim theorems -/

/-- C10: when the configured write secret `WRITE_TOKEN` is absent or the
empty string, `requireToken` rejects every request whatever the
`Authorization` header — including a missing header, a malformed header
and a bearer token equal to the empty secret — so every mutation
handler (`POST`, `PUT`, `DELETE`) answers 401 and an unconfigured
server is read-only. -/
theorem unconfigured_server_read_only (auth : Option String) (body : Nat) :
    requireToken "" auth = none ∧
    requireToken "" (some "Bearer ") = none ∧
    mutationStatus "" auth body = 401 := by
  refine ⟨?_, ?_, ?_⟩ <;> simp [requireToken, mutationStatus]

/-- C8: reading a corrupt store file logs `read_cards_parse_failed`,
resets the file to the empty array and returns the empty collection
without surfacing an error, so `GET /api/cards` against a corrupted
file answers zero cards and leaves an empty array on disk. -/
theorem corrupt_store_self_heals (txt : String) :
    safeRead (.corrupt txt) = ([], .good [], ["read_cards_parse_failed"]) ∧
    listCards (.corrupt txt) = (([], 0), .good [], ["read_cards_parse_failed"]) := by
  exact ⟨rfl, rfl⟩

/-- C9: when the target id is absent from the collection, the `PUT`
mutator and the `DELETE` mutator leave the collection unchanged and
report the not-found outcome `false` to the handler (which answers 404
rather than raising); when the id is present, the `PUT` mutator reports
updated and the `DELETE` mutator reports removed. -/
theorem notfound_leaves_store_unchanged (cards : List Card) (id : String) (p : Patch) :
    ((∀ c ∈ cards, c.id ≠ id) →
       patchMutator id p cards = (cards, false) ∧
       deleteMutator id cards = (cards, false)) ∧
    ((∃ c ∈ cards, c.id = id) →
       (patchMutator id p cards).2 = true ∧ (deleteMutator id cards).2 = true) := by
  constructor
  · intro hall
    have hidx : findIndex (fun c => c.id = id) cards = none := by
      rw [findIndex_eq_none_iff]
      intro c hc
      simp [hall c hc]
    have hfilter : cards.filter (fun c => ¬ c.id = id) = cards := by
      apply List.filter_eq_self.mpr
      intro c hc
      simp [hall c hc]
    refine ⟨?_, ?_⟩
    · simp [patchMutator, hidx]
    · simp [deleteMutator, hfilter]
      exact hall
  · intro hex
    obtain ⟨c, hc, hcid⟩ := hex
    have hne : findIndex (fun c => c.id = id) cards ≠ none := by
      intro hnone
      have := (findIndex_eq_none_iff _ _).mp hnone c hc
      simp [hcid] at this
    constructor
    · cases hidx : findIndex (fun c => c.id = id) cards with
      | none => exact absurd hidx hne
      | some i =>
        obtain ⟨hi, _⟩ := findIndex_spec _ _ _ hidx
        have hget : cards[i]? = some (cards.get ⟨i, hi⟩) := by
          simp [List.getElem?_eq_getElem hi]
        simp [patchMutator, hidx, hget]
    · have hlt : (cards.filter (fun c => ¬ c.id = id)).length < cards.length := by
        apply List.length_filter_lt_length_iff_exists.mpr
        exact ⟨c, hc, by simp [hcid]⟩
      have hne2 : (cards.filter (fun c => ¬ c.id = id)).length ≠ cards.length :=
        Nat.ne_of_lt hlt
      show decide (¬ (cards.filter (fun c => ¬ c.id = id)).length = cards.length) = true
      exact decide_eq_true hne2

/-- A concrete stored card used to instantiate the hypothesis-bearing
theorems about the mutators. -/
def cAbc : Card :=
  { id := "abc", front := "f", back := "b", lang_from := "pt", lang_to := "de",
    tags := [], ease := easeDefault, interval := jsZero, next_review := "n",
    lapses := jsZero, created_at := "c0" }

theorem notfound_leaves_store_unchanged_witness :
    (patchMutator "zzz" {} [cAbc] = ([cAbc], false) ∧
       deleteMutator "zzz" [cAbc] = ([cAbc], false)) ∧
    ((patchMutator "abc" {} [cAbc]).2 = true ∧
       (deleteMutator "abc" [cAbc]).2 = true) :=
  ⟨(notfound_leaves_store_unchanged [cAbc] "zzz" {}).1 (by decide),
   (notfound_leaves_store_unchanged [cAbc] "abc" {}).2 ⟨cAbc, by simp, by decide⟩⟩

/-- C7: upserting a single sanitized item whose id is carried by some
card of the collection replaces the card at the (last) index holding
that id and leaves the collection length unchanged; upserting an item
whose id is absent appends it, increasing the length by exactly one. -/
theorem upsert_unique (cards : List Card) (n : Card) :
    ((∃ c ∈ cards, c.id = n.id) →
       (upsertMutator [n] cards).length = cards.length ∧
       ∃ i : Nat, lastIdxOf cards n.id = some i ∧
         upsertMutator [n] cards = cards.set i n) ∧
    ((∀ c ∈ cards, c.id ≠ n.id) →
       upsertMutator [n] cards = cards ++ [n] ∧
       (upsertMutator [n] cards).length = cards.length + 1) := by
  constructor
  · intro hex
    have hne : lastIdxOf cards n.id ≠ none := by
      intro h
      obtain ⟨c, hc, hcid⟩ := hex
      exact absurd hcid ((lastIdxOf_eq_none_iff _ _).mp h c hc)
    cases h : lastIdxOf cards n.id with
    | none => exact absurd h hne
    | some i =>
      rw [upsertMutator_single, h]
      exact ⟨by simp, i, rfl, rfl⟩
  · intro hall
    have h : lastIdxOf cards n.id = none := (lastIdxOf_eq_none_iff _ _).mpr hall
    rw [upsertMutator_single, h]
    exact ⟨rfl, by simp⟩

/-- The sanitized item used in the upsert witnesses: same id as `cAbc`,
different text. -/
def nAbc : Card :=
  { id := "abc", front := "f2", back := "b2", lang_from := "pt", lang_to := "de",
    tags := [], ease := easeDefault, interval := jsZero, next_review := "n2",
    lapses := jsZero, created_at := "c2" }

/-- A sanitized item whose id is fresh. -/
def nNew : Card :=
  { id := "new000000000", front := "g", back := "h", lang_from := "pt", lang_to := "de",
    tags := [], ease := easeDefault, interval := jsZero, next_review := "n3",
    lapses := jsZero, created_at := "c3" }

theorem upsert_unique_witness :
    ((upsertMutator [nAbc] [cAbc]).length = 1 ∧
       ∃ i : Nat, lastIdxOf [cAbc] nAbc.id = some i ∧
         upsertMutator [nAbc] [cAbc] = [cAbc].set i nAbc) ∧
    (upsertMutator [nNew] [cAbc] = [cAbc] ++ [nNew] ∧
       (upsertMutator [nNew] [cAbc]).length = 1 + 1) :=
  ⟨(upsert_unique [cAbc] nAbc).1 ⟨cAbc, by simp, by decide⟩,
   (upsert_unique [cAbc] nNew).2 (by decide)⟩

theorem runUnit_fails (u : WriteUnit) (hu : unitFails u) (g : StoreFile) :
    (runUnit g u).1 = (safeRead g).2.1 ∧
    ∃ msg, (runUnit g u).2 = (safeRead g).2.2 ++ [msg] := by
  cases hm : u.mutator (safeRead g).1 with
  | error e =>
    simp only [runUnit, hm]
    exact ⟨trivial, "write_failed: " ++ e, rfl⟩
  | ok next =>
    have h := hu (safeRead g).1
    rw [hm] at h
    simp only at h
    simp only [runUnit, hm, h, if_false, Bool.false_eq_true]
    exact ⟨trivial, "write_failed: save", rfl⟩

/-- C5: the write chain is FIFO — executing the enqueued units is
sequential composition in enqueue order, each unit's load/apply/save
cycle seeing exactly the file state the previous unit left (no
interleaving is possible in the model: `runChainFrom` runs one unit at
a time) — and a unit whose mutator throws or whose save step fails is
logged (`write_failed`) and leaves the file as the `safeRead` left it,
while every later enqueued unit still runs. -/
theorem write_chain_fifo_and_failure_isolated (f : StoreFile)
    (us vs : List WriteUnit) (u : WriteUnit) (hu : unitFails u) :
    (runChain f (us ++ vs)).1 = (runChain (runChain f us).1 vs).1 ∧
    (runChain f (us ++ u :: vs)).1 =
      (runChain (safeRead (runChain f us).1).2.1 vs).1 ∧
    (∀ g : StoreFile, ∃ msg : String,
       (runUnit g u).2 = (safeRead g).2.2 ++ [msg]) := by
  refine ⟨?_, ?_, fun g => (runUnit_fails u hu g).2⟩
  · unfold runChain
    rw [runChainFrom_append]
    exact runChainFrom_fst_log_irrelevant vs (runChainFrom (f, []) us).1
      (runChainFrom (f, []) us).2 []
  · unfold runChain
    rw [runChainFrom_append]
    simp only [runChainFrom]
    rw [(runUnit_fails u hu _).1]
    exact runChainFrom_fst_log_irrelevant vs _ _ []

/-- A unit whose mutator always throws. -/
def uFail : WriteUnit := { mutator := fun _ => .error "boom", saveOk := true }

/-- A unit that appends `cAbc` and saves successfully. -/
def uAdd : WriteUnit := { mutator := fun cs => .ok (cs ++ [cAbc]), saveOk := true }

theorem write_chain_fifo_and_failure_isolated_witness :
    (runChain (.good []) ([uAdd] ++ [uAdd])).1 =
      (runChain (runChain (.good []) [uAdd]).1 [uAdd]).1 ∧
    (runChain (.good []) ([uAdd] ++ uFail :: [uAdd])).1 =
      (runChain (safeRead (runChain (.good []) [uAdd]).1).2.1 [uAdd]).1 ∧
    (∀ g : StoreFile, ∃ msg : String,
       (runUnit g uFail).2 = (safeRead g).2.2 ++ [msg]) :=
  write_chain_fifo_and_failure_isolated (.good []) [uAdd] [uAdd] uFail
    (fun _ => trivial)

/-- C3 (amended): the spread merge `{ ...existing, ...patch }` run by
the `PUT` mutator preserves `id` and `created_at` provided the patch
carries neither field; a patch with a `created_at` field (even without
an `id`) does overwrite `created_at`. -/
theorem merge_preserves_identity (c : Card) (p : Patch)
    (hid : p.id = none) (hca : p.created_at = none) :
    (mergePatch c p).id = c.id ∧ (mergePatch c p).created_at = c.created_at := by
  simp [mergePatch, hid, hca]

/-- A patch without an `id` field but with a `created_at` field. -/
def pCreated : Patch := { created_at := some "1999-01-01T00:00:00.000Z" }

/-- C3 counterexample: `pCreated` has no id, yet merging it changes
`created_at`, refuting the claim for arbitrary id-less patches. -/
theorem merge_changes_created_at_cex :
    pCreated.id = none ∧
    (mergePatch cAbc pCreated).id = cAbc.id ∧
    (mergePatch cAbc pCreated).created_at ≠ cAbc.created_at := by decide

/-- A patch touching only `interval` (the spec's Scenario B shape). -/
def pInterval : Patch := { interval := some { mant := 3, exp := 0 } }

theorem merge_preserves_identity_witness :
    (mergePatch cAbc pInterval).id = cAbc.id ∧
    (mergePatch cAbc pInterval).created_at = cAbc.created_at :=
  merge_preserves_identity cAbc pInterval rfl rfl

/-- C1 (amended): the `POST` mutator's spread `{ ...existing, ...n }`
replaces every field of the matched card with the sanitized item's, so
the card stored by an upsert carries the sanitized item's `created_at`;
when the raw input supplied none, that is the sanitize-time `now` — the
pre-existing card's `created_at` is overwritten, not preserved. -/
theorem upsert_stores_incoming_created_at (genId now : String) (r : RawCard)
    (n : Card) (cards : List Card) (i : Nat)
    (hr : r.created_at = none) (hs : sanitizeCard genId now r = some n)
    (hi : lastIdxOf cards n.id = some i) :
    n.created_at = now ∧
    upsertMutator [n] cards = cards.set i n ∧
    (upsertMutator [n] cards)[i]? = some n := by
  obtain ⟨hlt, -⟩ := lastIdxOf_spec cards n.id i hi
  have hset : upsertMutator [n] cards = cards.set i n := by
    rw [upsertMutator_single, hi]
  refine ⟨?_, hset, ?_⟩
  · simp only [sanitizeCard] at hs
    split at hs
    · cases hs
    · cases hs
      simp [hr, jsOrDefault]
  · rw [hset]
    simp [List.getElem?_set_self, hlt]

/-- A raw upsert body reusing the id of `cAbc` and supplying no
`created_at`. -/
def rNoCreated : RawCard :=
  { id := some "abc", front := some "f2", back := some (.str "b2"),
    next_review := some "n2" }

/-- What `sanitizeCard "gen0" "2024-05-05" rNoCreated` produces. -/
def nAbcSan : Card :=
  { id := "abc", front := "f2", back := "b2", lang_from := "pt", lang_to := "de",
    tags := [], ease := easeDefault, interval := jsZero, next_review := "n2",
    lapses := jsZero, created_at := "2024-05-05" }

/-- C1 counterexample: upserting `rNoCreated` (no `created_at` in the
raw input) over the stored card `cAbc` (whose `created_at` is `"c0"`)
stores `created_at = "2024-05-05"`, the sanitize-time timestamp — the
pre-existing creation time is not preserved. -/
theorem upsert_overwrites_created_at_cex :
    rNoCreated.created_at = none ∧
    sanitizeCard "gen0" "2024-05-05" rNoCreated = some nAbcSan ∧
    upsertMutator [nAbcSan] [cAbc] = [nAbcSan] ∧
    nAbcSan.created_at = "2024-05-05" ∧
    cAbc.created_at = "c0" ∧
    nAbcSan.created_at ≠ cAbc.created_at := by decide

theorem upsert_stores_incoming_created_at_witness :
    nAbcSan.created_at = "2024-05-05" ∧
    upsertMutator [nAbcSan] [cAbc] = [cAbc].set 0 nAbcSan ∧
    (upsertMutator [nAbcSan] [cAbc])[0]? = some nAbcSan :=
  upsert_stores_incoming_created_at "gen0" "2024-05-05" rNoCreated nAbcSan
    [cAbc] 0 rfl (by decide) (by decide)

/-- C2 (amended): on the create/upsert path the invariant holds — a
sanitized item always has non-empty `front` and `back` (`sanitizeCard`
rejects otherwise), and the upsert mutator only stores cards drawn from
the existing collection or the sanitized items. The `PUT` path,
however, performs no such rejection: a patch whose normalized `front`
or `back` is empty is merged as-is, so a stored card can end up with an
empty `front`/`back` (see the counterexample). -/
theorem sanitized_upsert_preserves_nonempty (genId now : String) (r : RawCard)
    (ns cards : List Card)
    (hcards : ∀ c ∈ cards, c.front ≠ "" ∧ c.back ≠ "")
    (hns : ∀ n ∈ ns, n.front ≠ "" ∧ n.back ≠ "") :
    (∀ n, sanitizeCard genId now r = some n → n.front ≠ "" ∧ n.back ≠ "") ∧
    (∀ c ∈ upsertMutator ns cards, c.front ≠ "" ∧ c.back ≠ "") := by
  constructor
  · intro n hs
    simp only [sanitizeCard] at hs
    split at hs
    · cases hs
    · next hguard =>
      push_neg at hguard
      cases hs
      exact ⟨hguard.1, hguard.2⟩
  · intro c hc
    rcases upsertLoop_mem (lastIdxOf cards) ns cards c hc with hm | hm
    · exact hcards c hm
    · exact hns c hm

/-- C2 counterexample: `PUT /api/cards/abc` with body `{front: "="}`
normalizes the patch front to the empty string and stores it — the
collection now holds a card with empty `front`. -/
theorem patch_stores_empty_front_cex :
    normalizeText "=" = "" ∧
    patchMutator "abc" (normalizePatch { front := some "=" }) [cAbc] =
      ([{ cAbc with front := "" }], true) ∧
    ({ cAbc with front := "" } : Card).front = "" := by decide

theorem sanitized_upsert_preserves_nonempty_witness :
    (∀ n, sanitizeCard "gen0" "2024-05-05" rNoCreated = some n →
       n.front ≠ "" ∧ n.back ≠ "") ∧
    (∀ c ∈ upsertMutator [nAbcSan] [cAbc], c.front ≠ "" ∧ c.back ≠ "") :=
  sanitized_upsert_preserves_nonempty "gen0" "2024-05-05" rNoCreated
    [nAbcSan] [cAbc] (by decide) (by decide)

/-- An already-sanitized card mapped back to the input field names
(`front`/`back` are the card's own fields; every field supplied). -/
def cardToRaw (o : Card) : RawCard :=
  { id := some o.id, front := some o.front, portuguese := none,
    back := some (.str o.back), translation := none,
    lang_from := some o.lang_from, lang_to := some o.lang_to,
    tags := some o.tags, ease := some o.ease, interval := some o.interval,
    next_review := some o.next_review, lapses := some o.lapses,
    created_at := some o.created_at }

theorem jsOrDefault_ne_empty (o : Option String) (d : String) (hd : d ≠ "") :
    jsOrDefault o d ≠ "" := by
  cases o with
  | none => simpa [jsOrDefault]
  | some s => by_cases hs : s = "" <;> simp [jsOrDefault, hs, hd]

theorem jsOrDefault_of_ne (s d : String) (hs : s ≠ "") :
    jsOrDefault (some s) d = s := by
  simp [jsOrDefault, hs]

theorem sanitizeCard_some_fields (genId now : String) (x : RawCard) (o : Card)
    (h : sanitizeCard genId now x = some o) (hnow : now ≠ "") :
    o.front ≠ "" ∧ o.back ≠ "" ∧ o.lang_from ≠ "" ∧ o.lang_to ≠ "" ∧
    o.next_review ≠ "" ∧ o.created_at ≠ "" ∧ o.tags.take 10 = o.tags := by
  simp only [sanitizeCard] at h
  split at h
  · cases h
  · next hguard =>
    push_neg at hguard
    cases h
    refine ⟨hguard.1, hguard.2, ?_, ?_, ?_, ?_, ?_⟩
    · exact jsOrDefault_ne_empty _ _ (by decide)
    · exact jsOrDefault_ne_empty _ _ (by decide)
    · exact jsOrDefault_ne_empty _ _ hnow
    · exact jsOrDefault_ne_empty _ _ hnow
    · simp [List.take_take]

/-- C4 (amended): re-sanitizing a sanitized card (fields mapped back to
input names, id supplied) reproduces it exactly **provided** its
`front` and `back` are fixed points of the normalization; in general
the leading-`=`-run strip is not idempotent (`"== =x"` normalizes to
`"=x"`, which normalizes further to `"x"`), so sanitization is not
idempotent as claimed — see the counterexample. -/
theorem sanitize_idempotent_on_normal_forms (genId now genId2 now2 : String)
    (x : RawCard) (o : Card)
    (h : sanitizeCard genId now x = some o)
    (hf : normalizeText o.front = o.front)
    (hb : normalizeText o.back = o.back)
    (hid : o.id ≠ "") (hnow : now ≠ "") :
    sanitizeCard genId2 now2 (cardToRaw o) = some o := by
  obtain ⟨hfne, hbne, hlf, hlt, hnr, hca, htags⟩ :=
    sanitizeCard_some_fields genId now x o h hnow
  obtain ⟨oid, ofr, oba, olf, olt, otg, oe, oi, onr, ola, oca⟩ := o
  replace hf : normalizeText ofr = ofr := hf
  replace hb : normalizeText oba = oba := hb
  replace hid : oid ≠ "" := hid
  replace hfne : ofr ≠ "" := hfne
  replace hbne : oba ≠ "" := hbne
  replace hlf : olf ≠ "" := hlf
  replace hlt : olt ≠ "" := hlt
  replace hnr : onr ≠ "" := hnr
  replace hca : oca ≠ "" := hca
  replace htags : otg.take 10 = otg := htags
  show (if normalizeText ofr = "" ∨ normalizeText oba = "" then none
        else some { id := jsOrDefault (some oid) genId2,
                    front := normalizeText ofr,
                    back := normalizeText oba,
                    lang_from := jsOrDefault (some olf) "pt",
                    lang_to := jsOrDefault (some olt) "de",
                    tags := otg.take 10, ease := oe, interval := oi,
                    next_review := jsOrDefault (some onr) now2, lapses := ola,
                    created_at := jsOrDefault (some oca) now2 } : Option Card)
      = some (Card.mk oid ofr oba olf olt otg oe oi onr ola oca)
  rw [hf, hb, if_neg (by simp [hfne, hbne])]
  rw [jsOrDefault_of_ne _ _ hid, jsOrDefault_of_ne _ _ hlf,
      jsOrDefault_of_ne _ _ hlt, jsOrDefault_of_ne _ _ hnr,
      jsOrDefault_of_ne _ _ hca, htags]

/-- An accepted input whose normalized front still starts with `'='`:
`"== =x"` → strip `"== "` → `"=x"`. -/
def rawEqCex : RawCard :=
  { id := some "idA", front := some "== =x", back := some (.str "b"),
    next_review := some "n0", created_at := some "c0" }

/-- The card produced by the first sanitization of `rawEqCex`. -/
def cEq1 : Card :=
  { id := "idA", front := "=x", back := "b", lang_from := "pt", lang_to := "de",
    tags := [], ease := easeDefault, interval := jsZero, next_review := "n0",
    lapses := jsZero, created_at := "c0" }

/-- The card produced by re-sanitizing `cEq1`: the front shrinks again. -/
def cEq2 : Card :=
  { id := "idA", front := "x", back := "b", lang_from := "pt", lang_to := "de",
    tags := [], ease := easeDefault, interval := jsZero, next_review := "n0",
    lapses := jsZero, created_at := "c0" }

/-- C4 counterexample: the id was supplied, so the claim demands an
equal card on re-sanitization, yet the front changes from `"=x"` to
`"x"` — the leading-`=` strip is not idempotent. -/
theorem sanitize_not_idempotent_cex :
    sanitizeCard "g1" "t1" rawEqCex = some cEq1 ∧
    sanitizeCard "g2" "t2" (cardToRaw cEq1) = some cEq2 ∧
    rawEqCex.id = some "idA" ∧ cEq2.id = cEq1.id ∧ cEq2 ≠ cEq1 ∧
    cEq1.front = "=x" ∧ cEq2.front = "x" := by decide

/-- A fixed-point input for the idempotence witness. -/
def rawFix : RawCard :=
  { id := some "i0", front := some "f", back := some (.str "b"),
    next_review := some "n", created_at := some "c" }

/-- The sanitization of `rawFix`. -/
def oFix : Card :=
  { id := "i0", front := "f", back := "b", lang_from := "pt", lang_to := "de",
    tags := [], ease := easeDefault, interval := jsZero, next_review := "n",
    lapses := jsZero, created_at := "c" }

theorem sanitize_idempotent_on_normal_forms_witness :
    sanitizeCard "g2" "t2" (cardToRaw oFix) = some oFix :=
  sanitize_idempotent_on_normal_forms "g1" "t1" "g2" "t2" rawFix oFix
    (by decide) (by decide) (by decide) (by decide) (by decide)

/-- C6 (amended): `front` is taken from `front` or the legacy
`portuguese` alias and `back` from `back` or the legacy `translation`
alias; a `back` given as a sequence of strings is joined with `" / "`
**verbatim** (no `=`-stripping or trimming is applied to the joined
result — see the counterexample), while a `back` given as a single
string, like `front`, has a leading `=`-run and surrounding whitespace
stripped; sanitize returns null exactly when either resulting string is
empty. -/
theorem sanitize_normalization_rules (g t : String) (c : RawCard) :
    (c.front = none →
       sanitizeCard g t c =
         sanitizeCard g t { c with front := c.portuguese, portuguese := none }) ∧
    (c.back = none →
       sanitizeCard g t c =
         sanitizeCard g t { c with back := c.translation, translation := none }) ∧
    (∀ o, sanitizeCard g t c = some o →
       o.front = normalizeText ((c.front.or c.portuguese).getD "") ∧
       o.back =
         (match (c.back.or c.translation).getD (.str "") with
          | .arr xs => String.intercalate " / " xs
          | .str s => normalizeText s)) ∧
    (sanitizeCard g t c = none ↔
       normalizeText ((c.front.or c.portuguese).getD "") = "" ∨
       (match (c.back.or c.translation).getD (.str "") with
        | .arr xs => String.intercalate " / " xs
        | .str s => normalizeText s) = "") := by
  obtain ⟨cid, cf, cp, cb, ct, clf, clt, ctg, ce, ci, cnr, cla, cca⟩ := c
  refine ⟨?_, ?_, ?_, ?_⟩
  · intro h
    cases h
    cases cp <;> rfl
  · intro h
    cases h
    cases ct <;> rfl
  · intro o hs
    simp only [sanitizeCard] at hs
    split at hs
    · cases hs
    · cases hs
      exact ⟨rfl, rfl⟩
  · unfold sanitizeCard
    split
    · next hcond => simp [hcond]; tauto
    · next hcond => simp [hcond]; tauto

/-- A body whose `back` is a sequence with a leading `=` in its first
element. -/
def rawArrEq : RawCard := { front := some "x", back := some (.arr ["=a", "b"]) }

/-- The card stored for `rawArrEq`: the joined back keeps its `=`. -/
def cArrEq : Card :=
  { id := "g6", front := "x", back := "=a / b", lang_from := "pt", lang_to := "de",
    tags := [], ease := easeDefault, interval := jsZero, next_review := "t6",
    lapses := jsZero, created_at := "t6" }

/-- C6 counterexample: for a `back` given as a sequence, the stored
value is the verbatim join `"=a / b"`; the leading `=`-run stripping the
claim asserts for `back` would have produced `"a / b"`. -/
theorem back_array_not_stripped_cex :
    sanitizeCard "g6" "t6" rawArrEq = some cArrEq ∧
    cArrEq.back = "=a / b" ∧
    normalizeText cArrEq.back = "a / b" ∧
    cArrEq.back ≠ "a / b" := by decide

/-- A body using only the legacy aliases. -/
def rawLegacy : RawCard := { portuguese := some "p", translation := some (.str "=q") }

/-- The card stored for `rawLegacy`. -/
def cLegacy : Card :=
  { id := "gW", front := "p", back := "q", lang_from := "pt", lang_to := "de",
    tags := [], ease := easeDefault, interval := jsZero, next_review := "tW",
    lapses := jsZero, created_at := "tW" }

theorem sanitize_normalization_rules_witness :
    sanitizeCard "gW" "tW" rawLegacy =
      sanitizeCard "gW" "tW"
        { rawLegacy with front := rawLegacy.portuguese, portuguese := none } ∧
    cLegacy.front = normalizeText ((rawLegacy.front.or rawLegacy.portuguese).getD "") :=
  ⟨(sanitize_normalization_rules "gW" "tW" rawLegacy).1 rfl,
   ((sanitize_normalization_rules "gW" "tW" rawLegacy).2.2.1 cLegacy (by decide)).1⟩
